import Mathlib

set_option linter.unusedVariables false

/-!
Verification of the `poke` GitHub notification manager (Deno/TypeScript).

The source is shallowly embedded: JavaScript strings become `List Char`,
JavaScript objects become structures or association lists, the stable
`Array.prototype.sort` becomes a stable insertion sort, and every
fallible or IO-performing operation takes its outside-world outcome as
an explicit parameter.  Each definition is annotated with the source
location it translates.
-/

namespace Poke

/-- JavaScript strings are modelled as their sequence of characters. -/
abbrev Str := List Char

/-- Turn a Lean string literal into the `Str` model. -/
def str (s : String) : Str := s.data

/-! ## A model of `localeCompare` and of stable `Array.prototype.sort`

`a.localeCompare(b)` is modelled as ordinal (code-unit) lexicographic
comparison returning -1 / 0 / 1; the comparator-driven
`Array.prototype.sort` (stable since ES2019) is modelled as a stable
insertion sort driven by the sign of the comparator. -/

/-- Ordinal string comparison: the model of `String.prototype.localeCompare`. -/
def strCmp : Str → Str → Int
  | [], [] => 0
  | [], _ :: _ => -1
  | _ :: _, [] => 1
  | a :: as, b :: bs => if a < b then -1 else if b < a then 1 else strCmp as bs

theorem strCmp_neg (a b : Str) : strCmp b a = -strCmp a b := by
  induction a generalizing b with
  | nil => cases b <;> simp [strCmp]
  | cons x xs ih =>
    cases b with
    | nil => simp [strCmp]
    | cons y ys =>
      simp only [strCmp]
      rcases lt_trichotomy x y with h | h | h
      · simp [h, not_lt.mpr h.le, h.ne']
      · simp [h, lt_irrefl, ih]
      · simp [h, not_lt.mpr h.le, h.ne']

theorem strCmp_le_trans {a b c : Str} (hab : strCmp a b ≤ 0) (hbc : strCmp b c ≤ 0) :
    strCmp a c ≤ 0 := by
  induction a generalizing b c with
  | nil => cases c <;> simp [strCmp]
  | cons x xs ih =>
    cases b with
    | nil => simp [strCmp] at hab
    | cons y ys =>
      cases c with
      | nil => simp [strCmp] at hbc
      | cons z zs =>
        simp only [strCmp] at hab hbc ⊢
        rcases lt_trichotomy x y with hxy | hxy | hxy
        · rcases lt_trichotomy y z with hyz | hyz | hyz
          · simp [hxy.trans hyz]
          · subst hyz; simp [hxy]
          · simp [hyz, not_lt.mpr hyz.le, hyz.ne'] at hbc
        · subst hxy
          rcases lt_trichotomy x z with hyz | hyz | hyz
          · simp [hyz]
          · subst hyz
            simp only [lt_irrefl, if_false] at hab hbc ⊢
            exact ih hab hbc
          · simp [hyz, not_lt.mpr hyz.le, hyz.ne'] at hbc
        · simp [hxy, not_lt.mpr hxy.le, hxy.ne'] at hab

/-- Stable insertion of `x` into `l` guided by the sign of comparator `c`:
`x` moves past every element it does not strictly precede. -/
def insertCmp (c : α → α → Int) (x : α) : List α → List α
  | [] => [x]
  | y :: ys => if c x y < 0 then x :: y :: ys else y :: insertCmp c x ys

/-- The model of comparator-driven stable `Array.prototype.sort`. -/
def jsSort (c : α → α → Int) (l : List α) : List α :=
  l.foldl (fun acc x => insertCmp c x acc) []

theorem mem_insertCmp (c : α → α → Int) (x : α) (l : List α) (z : α) :
    z ∈ insertCmp c x l ↔ z = x ∨ z ∈ l := by
  induction l with
  | nil => simp [insertCmp]
  | cons y ys ih =>
    simp only [insertCmp]
    split
    · simp
    · simp [ih]; tauto

theorem pairwise_insertCmp {c : α → α → Int}
    (hneg : ∀ a b, c b a = -c a b)
    (htrans : ∀ {a b d}, c a b ≤ 0 → c b d ≤ 0 → c a d ≤ 0)
    {x : α} {l : List α} (hl : l.Pairwise (fun a b => c a b ≤ 0)) :
    (insertCmp c x l).Pairwise (fun a b => c a b ≤ 0) := by
  induction l with
  | nil => simp [insertCmp]
  | cons y ys ih =>
    rcases List.pairwise_cons.mp hl with ⟨hy, hys⟩
    simp only [insertCmp]
    split
    · rename_i hxy
      refine List.pairwise_cons.mpr ⟨?_, hl⟩
      intro z hz
      rcases List.mem_cons.mp hz with rfl | hz
      · exact le_of_lt hxy
      · exact htrans (le_of_lt hxy) (hy z hz)
    · rename_i hxy
      refine List.pairwise_cons.mpr ⟨?_, ih hys⟩
      intro z hz
      rcases (mem_insertCmp c x ys z).mp hz with rfl | hz
      · have h0 : 0 ≤ c z y := not_lt.mp hxy
        rw [hneg z y]
        omega
      · exact hy z hz

theorem pairwise_jsSort {c : α → α → Int}
    (hneg : ∀ a b, c b a = -c a b)
    (htrans : ∀ {a b d}, c a b ≤ 0 → c b d ≤ 0 → c a d ≤ 0)
    (l : List α) :
    (jsSort c l).Pairwise (fun a b => c a b ≤ 0) := by
  suffices h : ∀ (l acc : List α), acc.Pairwise (fun a b => c a b ≤ 0) →
      (l.foldl (fun acc x => insertCmp c x acc) acc).Pairwise (fun a b => c a b ≤ 0) from
    h l [] (by simp)
  intro l
  induction l with
  | nil => intro acc h; simpa using h
  | cons x xs ih =>
    intro acc h
    exact ih _ (pairwise_insertCmp hneg htrans h)

theorem insertCmp_append {c : α → α → Int} {x : α} {l : List α}
    (h : ∀ y ∈ l, 0 ≤ c x y) : insertCmp c x l = l ++ [x] := by
  induction l with
  | nil => simp [insertCmp]
  | cons y ys ih =>
    have hy : 0 ≤ c x y := h y (List.mem_cons_self _ _)
    simp only [insertCmp, not_lt.mpr hy, if_neg (by omega : ¬ c x y < 0)]
    rw [ih fun z hz => h z (List.mem_cons_of_mem _ hz)]
    simp

/-- Sorting a list that is already pairwise-ordered leaves it unchanged. -/
theorem jsSort_of_pairwise {c : α → α → Int}
    (hneg : ∀ a b, c b a = -c a b)
    {l : List α} (hl : l.Pairwise (fun a b => c a b ≤ 0)) :
    jsSort c l = l := by
  suffices h : ∀ (l acc : List α), l.Pairwise (fun a b => c a b ≤ 0) →
      (∀ a ∈ acc, ∀ b ∈ l, c a b ≤ 0) →
      l.foldl (fun acc x => insertCmp c x acc) acc = acc ++ l by
    simpa using h l [] hl (by simp)
  intro l
  induction l with
  | nil => intro acc _ _; simp
  | cons x xs ih =>
    intro acc hl hacc
    rcases List.pairwise_cons.mp hl with ⟨hx, hxs⟩
    have hins : insertCmp c x acc = acc ++ [x] := by
      refine insertCmp_append fun y hy => ?_
      have := hacc y hy x (List.mem_cons_self _ _)
      rw [hneg y x]
      omega
    simp only [List.foldl_cons, hins]
    rw [ih (acc ++ [x]) hxs]
    · simp
    · intro a ha b hb
      rcases List.mem_append.mp ha with ha | ha
      · exact hacc a ha b (List.mem_cons_of_mem _ hb)
      · rcases List.mem_singleton.mp ha with rfl
        exact hx b hb

/-! ## Notifications and the prioritizer

Translating the `Notification` interface and `prioritiseNotifications`
from the notification script (`src/unnamed/part_002`, lines 5-11 and
79-124).  The module-level `WORK_ORGS` configuration is passed as an
explicit parameter. -/

structure Subject where
  title : Str
  type : Str
  url : Str
deriving DecidableEq

structure NotifRepo where
  full_name : Str
deriving DecidableEq

structure Notification where
  id : Str
  subject : Subject
  repository : NotifRepo
  reason : Str
  unread : Bool
deriving DecidableEq

/-- The `reasonScores` object of `prioritiseNotifications` (part_002, lines 82-90). -/
def reasonScores : List (Str × Nat) :=
  [(str "review_requested", 10), (str "mention", 9), (str "team_mention", 8),
   (str "assign", 7), (str "subscribed", 5), (str "author", 4), (str "comment", 3)]

/-- `reasonScores[reason] || defaultScore` with `defaultScore = 1`
(part_002, lines 92 and 105-106; no table entry is `0`, so the JavaScript
`||` fallback coincides with defaulting an absent key). -/
def reasonScore (reason : Str) : Nat :=
  (reasonScores.lookup reason).getD 1

/-- `WORK_ORGS.some((org) => name.startsWith(org + "/"))` (part_002, lines 95-100). -/
def isWorkRepo (workOrgs : List Str) (name : Str) : Bool :=
  workOrgs.any fun org => (org ++ ['/']).isPrefixOf name

/-- The per-item score computed inside the comparator:
reason weight plus a work-organization boost of 20 (part_002, lines 102-106). -/
def score (workOrgs : List Str) (n : Notification) : Nat :=
  reasonScore n.reason + (if isWorkRepo workOrgs n.repository.full_name then 20 else 0)

/-- The comparator passed to `sort` by `prioritiseNotifications`
(part_002, lines 94-123): descending score, then `PullRequest` subject
type first, then `localeCompare` on the repository full name. -/
def cmpNotif (workOrgs : List Str) (a b : Notification) : Int :=
  if score workOrgs b ≠ score workOrgs a then
    (score workOrgs b : Int) - score workOrgs a
  else if a.subject.type = str "PullRequest" ∧ b.subject.type ≠ str "PullRequest" then
    -1
  else if a.subject.type ≠ str "PullRequest" ∧ b.subject.type = str "PullRequest" then
    1
  else
    strCmp a.repository.full_name b.repository.full_name

/-- `prioritiseNotifications` (part_002, lines 79-124): a sorted copy of
the input list under `cmpNotif`. -/
def prioritiseNotifications (workOrgs : List Str) (notifications : List Notification) :
    List Notification :=
  jsSort (cmpNotif workOrgs) notifications

theorem cmpNotif_of_ne {w : List Str} {a b : Notification}
    (h : score w b ≠ score w a) :
    cmpNotif w a b = (score w b : Int) - score w a := by
  unfold cmpNotif
  rw [if_pos h]

theorem cmpNotif_of_pr_first {w : List Str} {a b : Notification}
    (h : score w b = score w a)
    (ha : a.subject.type = str "PullRequest") (hb : b.subject.type ≠ str "PullRequest") :
    cmpNotif w a b = -1 := by
  unfold cmpNotif
  rw [if_neg (by simp [h]), if_pos ⟨ha, hb⟩]

theorem cmpNotif_of_pr_second {w : List Str} {a b : Notification}
    (h : score w b = score w a)
    (ha : a.subject.type ≠ str "PullRequest") (hb : b.subject.type = str "PullRequest") :
    cmpNotif w a b = 1 := by
  unfold cmpNotif
  rw [if_neg (by simp [h]), if_neg (by tauto), if_pos ⟨ha, hb⟩]

theorem cmpNotif_of_same_kind {w : List Str} {a b : Notification}
    (h : score w b = score w a)
    (hk : (a.subject.type = str "PullRequest") ↔ (b.subject.type = str "PullRequest")) :
    cmpNotif w a b = strCmp a.repository.full_name b.repository.full_name := by
  unfold cmpNotif
  rw [if_neg (by simp [h]), if_neg (by tauto), if_neg (by tauto)]

theorem cmpNotif_neg (w : List Str) (a b : Notification) :
    cmpNotif w b a = -cmpNotif w a b := by
  by_cases hs : score w b = score w a
  · by_cases ha : a.subject.type = str "PullRequest" <;>
      by_cases hb : b.subject.type = str "PullRequest"
    · rw [cmpNotif_of_same_kind hs.symm (by tauto), cmpNotif_of_same_kind hs (by tauto)]
      exact strCmp_neg _ _
    · rw [cmpNotif_of_pr_second hs.symm hb ha, cmpNotif_of_pr_first hs ha hb]
      norm_num
    · rw [cmpNotif_of_pr_first hs.symm hb ha, cmpNotif_of_pr_second hs ha hb]
    · rw [cmpNotif_of_same_kind hs.symm (by tauto), cmpNotif_of_same_kind hs (by tauto)]
      exact strCmp_neg _ _
  · have hs' : score w a ≠ score w b := fun h => hs h.symm
    rw [cmpNotif_of_ne hs', cmpNotif_of_ne hs]
    omega

/-- The PR-first rank used for the second comparator level. -/
def prRank (n : Notification) : Nat :=
  if n.subject.type = str "PullRequest" then 0 else 1

theorem cmpNotif_le_iff (w : List Str) (a b : Notification) :
    cmpNotif w a b ≤ 0 ↔
      score w b < score w a ∨
        (score w a = score w b ∧
          (prRank a < prRank b ∨
            (prRank a = prRank b ∧
              strCmp a.repository.full_name b.repository.full_name ≤ 0))) := by
  by_cases hs : score w b = score w a
  · have hA : score w a = score w b := hs.symm
    by_cases ha : a.subject.type = str "PullRequest" <;>
      by_cases hb : b.subject.type = str "PullRequest"
    · rw [cmpNotif_of_same_kind hs (by tauto)]
      simp [prRank, ha, hb, hA]
    · rw [cmpNotif_of_pr_first hs ha hb]
      simp [prRank, ha, hb, hA]
    · rw [cmpNotif_of_pr_second hs ha hb]
      simp [prRank, ha, hb, hA]
    · rw [cmpNotif_of_same_kind hs (by tauto)]
      simp [prRank, ha, hb, hA]
  · have hs' : ¬ score w a = score w b := fun h => hs h.symm
    rw [cmpNotif_of_ne hs]
    constructor
    · intro h
      exact Or.inl (by omega)
    · rintro (h | ⟨h, -⟩)
      · omega
      · exact absurd h hs'

theorem cmpNotif_le_trans (w : List Str) {a b c : Notification}
    (hab : cmpNotif w a b ≤ 0) (hbc : cmpNotif w b c ≤ 0) :
    cmpNotif w a c ≤ 0 := by
  rw [cmpNotif_le_iff] at hab hbc ⊢
  rcases hab with hab | ⟨hab, hab'⟩ <;> rcases hbc with hbc | ⟨hbc, hbc'⟩
  · exact Or.inl (hbc.trans hab)
  · exact Or.inl (by omega)
  · exact Or.inl (by omega)
  · refine Or.inr ⟨by omega, ?_⟩
    rcases hab' with hr | ⟨hr, hstr⟩ <;> rcases hbc' with hr' | ⟨hr', hstr'⟩
    · exact Or.inl (by omega)
    · exact Or.inl (by omega)
    · exact Or.inl (by omega)
    · exact Or.inr ⟨by omega, strCmp_le_trans hstr hstr'⟩

/-! ## Search items and the review-list merge

Translating the `GitHubIssue` interface (src/poke.ts, lines 5-17) and the
duplicate-removing merge of personal and team review results inside
`fetchAllViews` (src/poke.ts, lines 158-174).  The optional
`pull_request` field is modelled by whether it is present, and
`repository.full_name` (always set by `searchGitHub`) by a plain field. -/

structure GitHubIssue where
  id : Nat
  number : Nat
  title : Str
  html_url : Str
  state : Str
  pull_request : Bool
  repository_full_name : Str
deriving DecidableEq

/-- The merge loops of `fetchAllViews` (src/poke.ts, lines 158-174):
push every personal review and record its id in `seenIds`, then push
each team review whose id is unseen. -/
def mergeReviews (personalReviews teamReviews : List GitHubIssue) : List GitHubIssue :=
  let s1 := personalReviews.foldl
    (fun (st : List GitHubIssue × List Nat) pr => (st.1 ++ [pr], pr.id :: st.2))
    ([], [])
  let s2 := teamReviews.foldl
    (fun (st : List GitHubIssue × List Nat) pr =>
      if pr.id ∈ st.2 then st else (st.1 ++ [pr], pr.id :: st.2))
    s1
  s2.1

/-- Recursive description of the team phase of the merge. -/
def teamFilter (seen : List Nat) : List GitHubIssue → List GitHubIssue
  | [] => []
  | pr :: rest =>
    if pr.id ∈ seen then teamFilter seen rest
    else pr :: teamFilter (pr.id :: seen) rest

theorem teamFilter_congr {seen seen' : List Nat}
    (h : ∀ x, x ∈ seen ↔ x ∈ seen') (t : List GitHubIssue) :
    teamFilter seen t = teamFilter seen' t := by
  induction t generalizing seen seen' with
  | nil => rfl
  | cons pr rest ih =>
    simp only [teamFilter]
    by_cases hm : pr.id ∈ seen
    · rw [if_pos hm, if_pos ((h pr.id).mp hm)]
      exact ih h
    · rw [if_neg hm, if_neg (fun hx => hm ((h pr.id).mpr hx))]
      refine congrArg _ (ih fun x => ?_)
      simp [h x]

theorem mergeReviews_team_foldl (t : List GitHubIssue)
    (acc : List GitHubIssue) (seen : List Nat) :
    (t.foldl
      (fun (st : List GitHubIssue × List Nat) pr =>
        if pr.id ∈ st.2 then st else (st.1 ++ [pr], pr.id :: st.2))
      (acc, seen)).1 = acc ++ teamFilter seen t := by
  induction t generalizing acc seen with
  | nil => simp [teamFilter]
  | cons pr rest ih =>
    simp only [List.foldl_cons, teamFilter]
    by_cases hm : pr.id ∈ seen
    · rw [if_pos hm, if_pos hm, ih]
    · rw [if_neg hm, if_neg hm, ih]
      simp

theorem mergeReviews_personal_foldl (p : List GitHubIssue)
    (acc : List GitHubIssue) (seen : List Nat) :
    p.foldl (fun (st : List GitHubIssue × List Nat) pr => (st.1 ++ [pr], pr.id :: st.2))
        (acc, seen)
      = (acc ++ p, p.reverse.map GitHubIssue.id ++ seen) := by
  induction p generalizing acc seen with
  | nil => simp
  | cons pr rest ih =>
    simp only [List.foldl_cons, ih]
    simp

/-- Structure of the merged review list: the personal reviews verbatim,
followed by the team reviews whose ids do not occur among the personal
ids, deduplicated among themselves. -/
theorem mergeReviews_eq (p t : List GitHubIssue) :
    mergeReviews p t = p ++ teamFilter (p.map GitHubIssue.id) t := by
  unfold mergeReviews
  rw [mergeReviews_personal_foldl, mergeReviews_team_foldl]
  simp only [List.nil_append]
  refine congrArg _ (teamFilter_congr (fun x => ?_) t)
  simp

theorem length_teamFilter (seen : List Nat) (t : List GitHubIssue) :
    (teamFilter seen t).length ≤ t.length := by
  induction t generalizing seen with
  | nil => simp [teamFilter]
  | cons pr rest ih =>
    simp only [teamFilter]
    by_cases hm : pr.id ∈ seen
    · rw [if_pos hm]
      exact (ih seen).trans (by simp)
    · rw [if_neg hm]
      simpa using ih (pr.id :: seen)

theorem mem_teamFilter {seen : List Nat} {t : List GitHubIssue} {pr : GitHubIssue}
    (h : pr ∈ teamFilter seen t) : pr ∈ t ∧ pr.id ∉ seen := by
  induction t generalizing seen with
  | nil => simp [teamFilter] at h
  | cons q rest ih =>
    simp only [teamFilter] at h
    by_cases hm : q.id ∈ seen
    · rw [if_pos hm] at h
      rcases ih h with ⟨h1, h2⟩
      exact ⟨List.mem_cons_of_mem _ h1, h2⟩
    · rw [if_neg hm] at h
      rcases List.mem_cons.mp h with rfl | h
      · exact ⟨List.mem_cons_self _ _, hm⟩
      · rcases ih h with ⟨h1, h2⟩
        refine ⟨List.mem_cons_of_mem _ h1, fun hx => h2 (List.mem_cons_of_mem _ hx)⟩

theorem nodup_teamFilter (seen : List Nat) (t : List GitHubIssue) :
    ((teamFilter seen t).map GitHubIssue.id).Nodup := by
  induction t generalizing seen with
  | nil => simp [teamFilter]
  | cons pr rest ih =>
    simp only [teamFilter]
    by_cases hm : pr.id ∈ seen
    · rw [if_pos hm]
      exact ih seen
    · rw [if_neg hm]
      simp only [List.map_cons, List.nodup_cons]
      refine ⟨fun hx => ?_, ih _⟩
      rcases List.mem_map.mp hx with ⟨q, hq, hid⟩
      exact (mem_teamFilter hq).2 (by simp [hid])

/-! ## Issue keys: formatting and parsing

`getIssueKey` (src/poke.ts, lines 186-188) formats the key with a
template literal; the update block (src/poke.ts, lines 505-512) parses a
key back with `includes("#")`, `split("#")` and `parseInt`, and
`updateIssueStatus` (src/poke.ts, lines 242-246) further splits the
repository part on `/`.  JavaScript number-to-string for a non-negative
integer is its decimal digit sequence, modelled by `natToChars`. -/

/-- Decimal digit sequence of a natural number, most significant first:
the model of JavaScript number-to-string interpolation. -/
def natToChars (n : Nat) : Str :=
  if h : n < 10 then [Nat.digitChar n]
  else natToChars (n / 10) ++ [Nat.digitChar (n % 10)]
decreasing_by exact Nat.div_lt_self (by omega) (by omega)

/-- Numeric value of a digit sequence, as accumulated by radix-10 parsing. -/
def digitsToNat (ds : Str) : Nat :=
  ds.foldl (fun acc c => 10 * acc + (c.toNat - 48)) 0

/-- `String.prototype.split` with a single-character separator. -/
def splitOnChar (sep : Char) : Str → List Str
  | [] => [[]]
  | c :: cs =>
    if c = sep then [] :: splitOnChar sep cs
    else
      match splitOnChar sep cs with
      | [] => [[c]]
      | p :: ps => (c :: p) :: ps

/-- ECMAScript whitespace as trimmed by `parseInt`: the WhiteSpace and
LineTerminator productions — tab, LF, VT, FF, CR, space, NBSP, the
Unicode space separators, the line and paragraph separators, and the
zero-width no-break space. -/
def jsWhitespace (c : Char) : Bool :=
  let n := c.toNat
  n = 0x9 || n = 0xA || n = 0xB || n = 0xC || n = 0xD || n = 0x20 || n = 0xA0 ||
  n = 0x1680 || (0x2000 ≤ n && n ≤ 0x200A) || n = 0x2028 || n = 0x2029 ||
  n = 0x202F || n = 0x205F || n = 0x3000 || n = 0xFEFF

/-- Hexadecimal digit test, as accepted by radix-16 `parseInt`. -/
def isHexDigitChar (c : Char) : Bool :=
  c.isDigit || ('a' ≤ c && c ≤ 'f') || ('A' ≤ c && c ≤ 'F')

/-- Numeric value of a decimal or hexadecimal digit character. -/
def digitVal (c : Char) : Nat :=
  if c.isDigit then c.toNat - 48
  else if 'a' ≤ c && c ≤ 'f' then c.toNat - 87
  else if 'A' ≤ c && c ≤ 'F' then c.toNat - 55
  else 0

/-- Value of a digit sequence in the given radix. -/
def digitsToNatBase (base : Nat) (ds : Str) : Nat :=
  ds.foldl (fun acc c => base * acc + digitVal c) 0

/-- The sign step of `parseInt`: consume at most one leading `-` or `+`,
returning the sign and the remainder. -/
def stripSignInt (cs : Str) : Int × Str :=
  match cs with
  | [] => (1, [])
  | c :: rest =>
    if c = '-' then (-1, rest) else if c = '+' then (1, rest) else (1, c :: rest)

/-- The radix-detection step of radix-less `parseInt`: strip a leading
`0x`/`0X` prefix, reporting whether radix 16 was selected. -/
def stripHex (s : Str) : Str × Bool :=
  match s with
  | c1 :: c2 :: rest =>
    if c1 = '0' ∧ (c2 = 'x' ∨ c2 = 'X') then (rest, true) else (s, false)
  | _ => (s, false)

/-- JavaScript `parseInt(s)` with no radix argument, as called at
src/poke.ts line 508: skip leading whitespace, consume an optional sign,
honor a `0x`/`0X` prefix selecting radix 16 (radix 10 otherwise), read
the longest digit prefix in the selected radix; `NaN` (here `none`) when
no digit follows. -/
def jsParseIntChars (s : Str) : Option Int :=
  let sb := stripSignInt (s.dropWhile jsWhitespace)
  let bh := stripHex sb.2
  let ds := bh.1.takeWhile fun c => if bh.2 then isHexDigitChar c else c.isDigit
  if ds = [] then none
  else some (sb.1 * (digitsToNatBase (if bh.2 then 16 else 10) ds : Int))

/-- `getIssueKey` (src/poke.ts, lines 186-188). -/
def getIssueKey (item : GitHubIssue) : Str :=
  item.repository_full_name ++ '#' :: natToChars item.number

/-- The issue-key parse of the update block (src/poke.ts, lines 505-512):
reject when `#` is absent, otherwise split on `#` and `parseInt` the
second part, rejecting `NaN`. -/
def parseUpdateKey (key : Str) : Option (Str × Int) :=
  if '#' ∈ key then
    let parts := splitOnChar '#' key
    let repo := parts.getD 0 []
    let numStr := parts.getD 1 []
    match jsParseIntChars numStr with
    | none => none
    | some n => some (repo, n)
  else none

/-- Full triple recovery: `parseUpdateKey` followed by the
`repo.split("/")` destructuring and falsiness check of
`updateIssueStatus` (src/poke.ts, lines 242-246). -/
def parseTriple (key : Str) : Option (Str × Str × Int) :=
  match parseUpdateKey key with
  | none => none
  | some (repo, n) =>
    let parts := splitOnChar '/' repo
    let owner := parts.getD 0 []
    let repoName := parts.getD 1 []
    if owner = [] ∨ repoName = [] then none else some (owner, repoName, n)

theorem natToChars_isDigit (n : Nat) : ∀ c ∈ natToChars n, c.isDigit = true := by
  induction n using natToChars.induct with
  | case1 n h =>
    rw [natToChars, dif_pos h]
    intro c hc
    rcases List.mem_singleton.mp hc with rfl
    interval_cases n <;> decide
  | case2 n h ih =>
    rw [natToChars, dif_neg h]
    intro c hc
    rcases List.mem_append.mp hc with hc | hc
    · exact ih c hc
    · rcases List.mem_singleton.mp hc with rfl
      have : n % 10 < 10 := Nat.mod_lt _ (by omega)
      interval_cases hm : (n % 10) <;> simp_all <;> decide

theorem natToChars_ne_nil (n : Nat) : natToChars n ≠ [] := by
  rw [natToChars]
  split <;> simp

theorem digitsToNat_append (a b : Str) :
    digitsToNat (a ++ b) = b.foldl (fun acc c => 10 * acc + (c.toNat - 48)) (digitsToNat a) := by
  simp [digitsToNat, List.foldl_append]

theorem digitsToNat_natToChars (n : Nat) : digitsToNat (natToChars n) = n := by
  induction n using natToChars.induct with
  | case1 n h =>
    rw [natToChars, dif_pos h]
    interval_cases n <;> decide
  | case2 n h ih =>
    rw [natToChars, dif_neg h, digitsToNat_append, ih]
    have h10 : n % 10 < 10 := Nat.mod_lt _ (by omega)
    have : (Nat.digitChar (n % 10)).toNat - 48 = n % 10 := by
      interval_cases hm : (n % 10) <;> simp_all <;> decide
    simp only [List.foldl_cons, List.foldl_nil, this]
    omega

theorem toNat_bounds_of_isDigit {c : Char} (h : c.isDigit = true) :
    48 ≤ c.toNat ∧ c.toNat ≤ 57 := by
  simp only [Char.isDigit, Bool.and_eq_true, decide_eq_true_eq] at h
  rcases h with ⟨h1, h2⟩
  have g1 : (48 : UInt32).toBitVec.toNat ≤ c.val.toBitVec.toNat :=
    BitVec.le_def.mp (UInt32.le_def.mp h1)
  have g2 : c.val.toBitVec.toNat ≤ (57 : UInt32).toBitVec.toNat :=
    BitVec.le_def.mp (UInt32.le_def.mp h2)
  exact ⟨g1, g2⟩

theorem isDigit_not_jsWhitespace {c : Char} (h : c.isDigit = true) :
    jsWhitespace c = false := by
  obtain ⟨h1, h2⟩ := toNat_bounds_of_isDigit h
  simp [jsWhitespace]
  omega

theorem splitOnChar_of_not_mem {sep : Char} {a : Str} (h : sep ∉ a) :
    splitOnChar sep a = [a] := by
  induction a with
  | nil => rfl
  | cons c cs ih =>
    have hc : ¬ c = sep := fun e => h (e ▸ List.mem_cons_self _ _)
    simp only [splitOnChar, if_neg hc]
    rw [ih fun hm => h (List.mem_cons_of_mem _ hm)]

theorem splitOnChar_append_sep {sep : Char} {a : Str} (h : sep ∉ a) (b : Str) :
    splitOnChar sep (a ++ sep :: b) = a :: splitOnChar sep b := by
  induction a with
  | nil => simp [splitOnChar]
  | cons c cs ih =>
    have hc : ¬ c = sep := fun e => h (e ▸ List.mem_cons_self _ _)
    simp only [List.cons_append, splitOnChar, if_neg hc, List.append_eq]
    rw [ih fun hm => h (List.mem_cons_of_mem _ hm)]

theorem takeWhile_eq_self_of_all {p : Char → Bool} {l : Str}
    (h : ∀ c ∈ l, p c = true) : l.takeWhile p = l := by
  induction l with
  | nil => rfl
  | cons c cs ih =>
    rw [List.takeWhile_cons, if_pos (h c (List.mem_cons_self _ _))]
    rw [ih fun x hx => h x (List.mem_cons_of_mem _ hx)]

theorem digitsToNatBase_ten (ds : Str) (hd : ∀ c ∈ ds, c.isDigit = true) :
    digitsToNatBase 10 ds = digitsToNat ds := by
  suffices h : ∀ (l : Str), (∀ c ∈ l, c.isDigit = true) → ∀ acc : Nat,
      l.foldl (fun acc c => 10 * acc + digitVal c) acc
        = l.foldl (fun acc c => 10 * acc + (c.toNat - 48)) acc from h ds hd 0
  intro l
  induction l with
  | nil => intro _ acc; rfl
  | cons c cs ih =>
    intro hl acc
    rcases List.forall_mem_cons.mp hl with ⟨hc, hcs⟩
    simp only [List.foldl_cons, digitVal, hc, if_true]
    exact ih hcs _

theorem jsParseIntChars_digits {ds : Str} (hne : ds ≠ [])
    (hd : ∀ c ∈ ds, c.isDigit = true) :
    jsParseIntChars ds = some ((digitsToNat ds : Int)) := by
  cases ds with
  | nil => exact absurd rfl hne
  | cons c cs =>
    have hc : c.isDigit = true := hd c (List.mem_cons_self _ _)
    have hw : jsWhitespace c = false := isDigit_not_jsWhitespace hc
    have hminus : ¬ c = '-' := fun e => by subst e; exact absurd hc (by decide)
    have hplus : ¬ c = '+' := fun e => by subst e; exact absurd hc (by decide)
    have hsign : stripSignInt (c :: cs) = (1, c :: cs) := by
      simp [stripSignInt, hminus, hplus]
    have hstrip : stripHex (c :: cs) = (c :: cs, false) := by
      cases cs with
      | nil => rfl
      | cons c2 rest =>
        have hc2 : c2.isDigit = true := hd c2 (by simp)
        have hx : ¬ (c = '0' ∧ (c2 = 'x' ∨ c2 = 'X')) := by
          rintro ⟨-, rfl | rfl⟩ <;> exact absurd hc2 (by decide)
        simp [stripHex, hx]
    simp only [jsParseIntChars, List.dropWhile_cons, hw, Bool.false_eq_true, if_false,
      hsign, hstrip]
    rw [takeWhile_eq_self_of_all hd]
    rw [if_neg (by simp : ¬ (c :: cs = [])), digitsToNatBase_ten _ hd]
    simp

/-- Formatting a key from a `#`-free repository full name and parsing it
back recovers the name and the number. -/
theorem parseUpdateKey_roundtrip (fullName : Str) (n : Nat) (h : '#' ∉ fullName) :
    parseUpdateKey (fullName ++ '#' :: natToChars n) = some (fullName, (n : Int)) := by
  have hdig := natToChars_isDigit n
  have hsep : '#' ∉ natToChars n := fun hm => absurd (hdig _ hm) (by decide)
  unfold parseUpdateKey
  rw [if_pos (by simp : '#' ∈ fullName ++ '#' :: natToChars n)]
  simp only [splitOnChar_append_sep h, splitOnChar_of_not_mem hsep,
    List.getD_cons_zero, List.getD_cons_succ]
  rw [jsParseIntChars_digits (natToChars_ne_nil n) hdig, digitsToNat_natToChars]

/-- Formatting `owner/repo#number` and parsing it back through the
update block and the `updateIssueStatus` destructuring recovers the
original triple, provided the names avoid the separators. -/
theorem parseTriple_roundtrip (owner repo : Str) (n : Nat)
    (h1 : '#' ∉ owner) (h2 : '#' ∉ repo) (h3 : '/' ∉ owner) (h4 : '/' ∉ repo)
    (h5 : owner ≠ []) (h6 : repo ≠ []) :
    parseTriple ((owner ++ '/' :: repo) ++ '#' :: natToChars n)
      = some (owner, repo, (n : Int)) := by
  have hfull : '#' ∉ owner ++ '/' :: repo := by
    intro hm
    rcases List.mem_append.mp hm with hm | hm
    · exact h1 hm
    · rcases List.mem_cons.mp hm with he | hm
      · exact absurd he (by decide)
      · exact h2 hm
  unfold parseTriple
  rw [parseUpdateKey_roundtrip _ n hfull]
  simp only [splitOnChar_append_sep h3, splitOnChar_of_not_mem h4,
    List.getD_cons_zero, List.getD_cons_succ]
  rw [if_neg (by simp [h5, h6])]

/-- Strip at most one leading sign character: the sign step of `parseInt`,
viewed on the remainder string only. -/
def stripSign : Str → Str
  | [] => []
  | c :: rest => if c = '-' ∨ c = '+' then rest else c :: rest

/-- Does the radix-stripped remainder start with a digit of the selected
radix? -/
def headIsRadixDigit : Str × Bool → Bool
  | ([], _) => false
  | (c :: _, hex) => if hex then isHexDigitChar c else c.isDigit

theorem stripSignInt_snd (cs : Str) : (stripSignInt cs).2 = stripSign cs := by
  cases cs with
  | nil => rfl
  | cons c rest =>
    by_cases hm : c = '-'
    · simp [stripSignInt, stripSign, hm]
    · by_cases hp : c = '+' <;> simp [stripSignInt, stripSign, hm, hp]

theorem takeWhile_radix_eq_nil_iff (bh : Str × Bool) :
    (bh.1.takeWhile (fun c => if bh.2 then isHexDigitChar c else c.isDigit) = [])
      ↔ headIsRadixDigit bh = false := by
  rcases bh with ⟨l, hex⟩
  cases l with
  | nil => simp [headIsRadixDigit]
  | cons c cs =>
    cases hex with
    | false =>
      cases hd : c.isDigit <;> simp [headIsRadixDigit, List.takeWhile_cons, hd]
    | true =>
      cases hd : isHexDigitChar c <;> simp [headIsRadixDigit, List.takeWhile_cons, hd]

theorem jsParseIntChars_eq_none_iff (s : Str) :
    jsParseIntChars s = none ↔
      headIsRadixDigit (stripHex (stripSign (s.dropWhile jsWhitespace))) = false := by
  rw [← stripSignInt_snd, ← takeWhile_radix_eq_nil_iff]
  simp only [jsParseIntChars]
  by_cases hds : (stripHex (stripSignInt (s.dropWhile jsWhitespace)).2).1.takeWhile
      (fun c => if (stripHex (stripSignInt (s.dropWhile jsWhitespace)).2).2
        then isHexDigitChar c else c.isDigit) = []
  · simp [hds]
  · simp [hds]

/-- The update block rejects a key as malformed exactly when `#` is
absent or the number segment, after optional whitespace, an optional
sign and an optional `0x`/`0X` radix prefix, does not start with a digit
of the selected radix. -/
theorem parseUpdateKey_eq_none_iff (key : Str) :
    parseUpdateKey key = none ↔
      '#' ∉ key ∨
        headIsRadixDigit
          (stripHex
            (stripSign (((splitOnChar '#' key).getD 1 []).dropWhile jsWhitespace)))
          = false := by
  unfold parseUpdateKey
  rw [← jsParseIntChars_eq_none_iff]
  by_cases h : '#' ∈ key
  · rw [if_pos h]
    simp only [h, not_true_eq_false, false_or, List.getD]
    cases hj : jsParseIntChars ((splitOnChar '#' key)[1]?.getD []) <;> simp [hj]
  · rw [if_neg h]
    simp [h]

/-! ## The local annotation store

Translating `TodoItem`/`TodoStorage` (src/poke.ts, lines 19-29; the
`issues` record is modelled as an association list with unique keys) and
the local-update logic of the `--update` block (src/poke.ts, lines
549-582, identical in its fallback copy at lines 600-634). -/

inductive Status where
  | backlog
  | inProgress
  | blocked
  | review
deriving DecidableEq

structure TodoItem where
  status : Status
  notes : Str
  lastUpdated : Str
  title : Option Str
  url : Option Str
deriving DecidableEq

/-- JavaScript object property assignment on a record modelled as an
association list: replace the value of an existing key, otherwise add
the property at the end. -/
def setKey (issues : List (Str × TodoItem)) (key : Str) (item : TodoItem) :
    List (Str × TodoItem) :=
  match issues with
  | [] => [(key, item)]
  | (k, v) :: rest => if k = key then (key, item) :: rest else (k, v) :: setKey rest key item

/-- The local-data update of the `--update` block (src/poke.ts, lines
549-582): initialise a missing annotation with the given status or
`backlog` and empty notes; overwrite the status if one was given; append
`"[today] note"` to the notes, preceded by a blank line exactly when
notes already exist; stamp `lastUpdated`; record fetched title/url when
the issue-details fetch succeeded. -/
def updateLocal (issues : List (Str × TodoItem)) (issueKey : Str)
    (status : Option Status) (note : Option Str) (today now : Str)
    (fetched : Option (Str × Str)) : List (Str × TodoItem) :=
  let item0 : TodoItem :=
    match issues.lookup issueKey with
    | some it => it
    | none =>
      { status := status.getD Status.backlog, notes := [], lastUpdated := now,
        title := none, url := none }
  let item1 : TodoItem :=
    match status with
    | some s => { item0 with status := s }
    | none => item0
  let item2 : TodoItem :=
    match note with
    | some n =>
      let separator : Str := if item1.notes.length > 0 then str "\n\n" else []
      { item1 with notes := item1.notes ++ separator ++ '[' :: today ++ ']' :: ' ' :: n }
    | none => item1
  let item3 : TodoItem := { item2 with lastUpdated := now }
  let item4 : TodoItem :=
    match fetched with
    | some (t, u) => { item3 with title := some t, url := some u }
    | none => item3
  setKey issues issueKey item4

/-- Outcome record of one `--update` invocation. -/
structure UpdateOutcome where
  remoteReported : Option Bool
  issues : List (Str × TodoItem)
deriving DecidableEq

/-- The `--update` command path (src/poke.ts, lines 505-637) after the
key has parsed, with the outside world's answers passed in: when a
status is given, `updateIssueStatus` is called and its boolean outcome
only logged; the local update then runs unconditionally, in the `try`
branch when the issue-details fetch did not throw and in the structurally
identical `catch` branch otherwise. -/
def runUpdateCommand (remoteOk : Bool) (fetched : Option (Str × Str))
    (issues : List (Str × TodoItem)) (issueKey : Str)
    (status : Option Status) (note : Option Str) (today now : Str) : UpdateOutcome :=
  let remoteReported := status.map fun _ => remoteOk
  { remoteReported := remoteReported,
    issues := updateLocal issues issueKey status note today now fetched }

theorem lookup_setKey_self (issues : List (Str × TodoItem)) (key : Str) (item : TodoItem) :
    (setKey issues key item).lookup key = some item := by
  induction issues with
  | nil => simp [setKey]
  | cons kv rest ih =>
    rcases kv with ⟨k, v⟩
    simp only [setKey]
    by_cases hk : k = key
    · rw [if_pos hk]
      simp
    · rw [if_neg hk]
      have hk0 : ¬ key = k := fun e => hk e.symm
      have hk' : ¬ (key == k) = true := by simp [hk0]
      simp [List.lookup, hk', ih]

theorem lookup_updateLocal_self (issues : List (Str × TodoItem)) (issueKey : Str)
    (status : Option Status) (note : Option Str) (today now : Str)
    (fetched : Option (Str × Str)) :
    ∃ item, (updateLocal issues issueKey status note today now fetched).lookup issueKey
      = some item := by
  unfold updateLocal
  exact ⟨_, lookup_setKey_self _ _ _⟩

/-! ## Loading persisted state

`loadTodoData` (src/poke.ts, lines 191-208) reads and `JSON.parse`s the
todo file inside a `try` whose `catch` returns `{ issues: {} }`.  The
file's observable state is modelled as `Option Json`: `none` when the
file is absent, unreadable, or not valid JSON (`readTextFile` or
`JSON.parse` threw).  In strict-mode Deno code, `data.issues = {}` on a
parsed primitive or `null` throws a `TypeError` that the same `catch`
turns into `{ issues: {} }`; a parsed array carries no usable `issues`
property either, so every non-object parse result is modelled by the
empty storage. -/

inductive Json where
  | null
  | bool (b : Bool)
  | num (n : Int)
  | jstr (s : Str)
  | arr (elems : List Json)
  | obj (fields : List (Str × Json))

/-- Property assignment on a JSON object's field list: replace the first
occurrence or append. -/
def setJsonField (fields : List (Str × Json)) (key : Str) (v : Json) :
    List (Str × Json) :=
  match fields with
  | [] => [(key, v)]
  | (k, w) :: rest =>
    if k = key then (key, v) :: rest else (k, w) :: setJsonField rest key v

/-- JavaScript truthiness of an optional property value (`undefined`,
`null`, `false`, `0` and `""` are falsy). -/
def truthy : Option Json → Bool
  | none => false
  | some Json.null => false
  | some (Json.bool b) => b
  | some (Json.num n) => n != 0
  | some (Json.jstr s) => !s.isEmpty
  | some (Json.arr _) => true
  | some (Json.obj _) => true

/-- `loadTodoData` (src/poke.ts, lines 191-208). -/
def loadTodoData (file : Option Json) : Json :=
  match file with
  | some (Json.obj fields) =>
    if truthy (fields.lookup (str "issues")) then Json.obj fields
    else Json.obj (setJsonField fields (str "issues") (Json.obj []))
  | _ => Json.obj [(str "issues", Json.obj [])]

/-- The `issues` property of a loaded storage value. -/
def issuesOf : Json → Option Json
  | Json.obj fields => fields.lookup (str "issues")
  | _ => none

/-- Number of stored annotations reported by a loaded storage value
(`Object.keys(todoData.issues).length`, src/poke.ts, line 659). -/
def storedCount (j : Json) : Nat :=
  match issuesOf j with
  | some (Json.obj fields) => fields.length
  | _ => 0

theorem lookup_setJsonField_self (fields : List (Str × Json)) (key : Str) (v : Json) :
    (setJsonField fields key v).lookup key = some v := by
  induction fields with
  | nil => simp [setJsonField]
  | cons kv rest ih =>
    rcases kv with ⟨k, w⟩
    simp only [setJsonField]
    by_cases hk : k = key
    · rw [if_pos hk]
      simp
    · rw [if_neg hk]
      have hk0 : ¬ key = k := fun e => hk e.symm
      have hk' : ¬ (key == k) = true := by simp [hk0]
      simp [List.lookup, hk', ih]

/-! ## The todo-mode display merge

The `--todo` rendering block (src/poke.ts, lines 669-737): assigned
issues are grouped by their stored status (default `backlog`), every
stored key not among the assigned keys becomes a manually tracked entry
grouped by its stored status, and the four groups are printed in the
fixed order in-progress, blocked, review, backlog, each only when it is
non-empty, remote entries before manual ones. -/

inductive DisplayEntry where
  | remote (item : GitHubIssue)
  | manual (key : Str) (data : TodoItem)
deriving DecidableEq

/-- Stored status of an assigned item (`todoData?.issues[key]?.status ||
"backlog"`, src/poke.ts, line 684). -/
def effectiveStatus (issues : List (Str × TodoItem)) (item : GitHubIssue) : Status :=
  match issues.lookup (getIssueKey item) with
  | some it => it.status
  | none => Status.backlog

/-- One displayed group: the assigned items of this status in view
order, then the manually tracked stored entries of this status. -/
def displayGroup (todoView : List GitHubIssue) (issues : List (Str × TodoItem))
    (s : Status) : List DisplayEntry :=
  (todoView.filter fun item => effectiveStatus issues item = s).map DisplayEntry.remote
    ++ ((issues.filter fun kv =>
          kv.1 ∉ todoView.map getIssueKey ∧ kv.2.status = s).map
        fun kv => DisplayEntry.manual kv.1 kv.2)

/-- `mergeForDisplay`: the sequence of non-empty status groups as printed
by the `--todo` block (src/poke.ts, lines 669-737). -/
def mergeForDisplay (todoView : List GitHubIssue) (issues : List (Str × TodoItem)) :
    List (Status × List DisplayEntry) :=
  [(Status.inProgress, displayGroup todoView issues Status.inProgress),
   (Status.blocked, displayGroup todoView issues Status.blocked),
   (Status.review, displayGroup todoView issues Status.review),
   (Status.backlog, displayGroup todoView issues Status.backlog)].filter
    fun g => ¬ g.2.isEmpty

/-! ## The desktop-notification assembly

The notification list of the standard display path (src/poke.ts, lines
786-808, and identically src/unnamed/part_002, lines 486-507):
to-review items fill at most `Math.ceil(n / 2)` slots, then assigned
items and reviewed items fill only what remains below `n`. -/

/-- The `notificationItems` assembly (src/poke.ts, lines 786-808). -/
def notificationItems (notificationCount : Nat)
    (toReview todo reviewed : List GitHubIssue) : List GitHubIssue :=
  let reviewSlots := (notificationCount + 1) / 2
  let items0 := ([] : List GitHubIssue) ++ toReview.take reviewSlots
  let items1 :=
    if items0.length < notificationCount then
      items0 ++ todo.take (notificationCount - items0.length)
    else items0
  let items2 :=
    if items1.length < notificationCount then
      items1 ++ reviewed.take (notificationCount - items1.length)
    else items1
  items2

/-! ## Concrete fixtures used by scenario and counterexample theorems -/

def notifMention : Notification :=
  { id := str "1",
    subject := { title := str "t1", type := str "PullRequest", url := str "u1" },
    repository := { full_name := str "acme/x" },
    reason := str "mention",
    unread := true }

def notifReviewHyphen : Notification :=
  { id := str "2",
    subject := { title := str "t2", type := str "PullRequest", url := str "u2" },
    repository := { full_name := str "other/y" },
    reason := str "review-requested",
    unread := true }

def notifReviewUnderscore : Notification :=
  { id := str "2",
    subject := { title := str "t2", type := str "PullRequest", url := str "u2" },
    repository := { full_name := str "other/y" },
    reason := str "review_requested",
    unread := true }

def prAlpha : GitHubIssue :=
  { id := 5, number := 1, title := str "alpha", html_url := str "ua",
    state := str "open", pull_request := true, repository_full_name := str "acme/x" }

def prBeta : GitHubIssue :=
  { id := 6, number := 2, title := str "beta", html_url := str "ub",
    state := str "open", pull_request := true, repository_full_name := str "acme/y" }

/-! ## Claim C1: the prioritizer's scoring -/

/-- C1, counterexample: the claim predicts score `9 + 30 = 39` for a
`mention` item in a work-organization repository and score `10` for a
`review-requested` item elsewhere; the code's boost is `20` and its
weight table is keyed by `review_requested`, so the two items score `29`
and `1`. -/
theorem c1_counterexample :
    score [str "acme"] notifMention = 29 ∧ score [str "acme"] notifMention ≠ 39 ∧
    score [str "acme"] notifReviewHyphen = 1 ∧ score [str "acme"] notifReviewHyphen ≠ 10 := by
  refine ⟨by decide, by decide, by decide, by decide⟩

/-- C1 (amended): every item's score is its reason weight
(`review_requested` 10, `mention` 9, `team_mention` 8, `assign` 7,
`subscribed` 5, `author` 4, `comment` 3, anything unrecognized 1) plus 20
when the repository full name starts with a configured work-organization
prefix and 0 otherwise; with work organizations `[acme]`, a `mention`
item in `acme/x` scores 29 and a `review_requested` item in `other/y`
scores 10, so the first is ordered before the second. -/
theorem c1_prioritizer_score :
    (∀ w n, score w n
        = (reasonScores.lookup n.reason).getD 1
          + (if isWorkRepo w n.repository.full_name then 20 else 0)) ∧
    reasonScore (str "review_requested") = 10 ∧
    reasonScore (str "mention") = 9 ∧
    reasonScore (str "team_mention") = 8 ∧
    reasonScore (str "assign") = 7 ∧
    reasonScore (str "subscribed") = 5 ∧
    reasonScore (str "author") = 4 ∧
    reasonScore (str "comment") = 3 ∧
    reasonScore (str "something-else") = 1 ∧
    score [str "acme"] notifMention = 29 ∧
    score [str "acme"] notifReviewUnderscore = 10 ∧
    prioritiseNotifications [str "acme"] [notifMention, notifReviewUnderscore]
      = [notifMention, notifReviewUnderscore] ∧
    prioritiseNotifications [str "acme"] [notifReviewUnderscore, notifMention]
      = [notifMention, notifReviewUnderscore] := by
  refine ⟨fun w n => rfl, ?_, ?_, ?_, ?_, ?_, ?_, ?_, ?_, ?_, ?_, ?_, ?_⟩ <;> decide

/-! ## Claim C2: the review-list merge -/

/-- C2, counterexample: the claim asserts for all pairs of lists that
the merged output contains no duplicate id, but personal reviews are
appended unconditionally, so a duplicated personal entry survives. -/
theorem c2_counterexample :
    mergeReviews [prAlpha, prAlpha] [] = [prAlpha, prAlpha] ∧
    ¬ ((mergeReviews [prAlpha, prAlpha] []).map GitHubIssue.id).Nodup := by
  refine ⟨by decide, by decide⟩

/-- C2 (amended): the merge appends every personal item and then only
team items with unseen ids, so the output is the personal list followed
by team items whose ids are not among the personal ids, its length is at
most the sum of the input lengths, and — provided the personal list
itself carries no duplicate id — the output contains no duplicate id. -/
theorem c2_mergeReviews (personal team : List GitHubIssue) :
    (mergeReviews personal team).length ≤ personal.length + team.length ∧
    (∃ t', mergeReviews personal team = personal ++ t' ∧
      ∀ pr ∈ t', pr ∈ team ∧ pr.id ∉ personal.map GitHubIssue.id) ∧
    ((personal.map GitHubIssue.id).Nodup →
      ((mergeReviews personal team).map GitHubIssue.id).Nodup) := by
  refine ⟨?_, ?_, ?_⟩
  · rw [mergeReviews_eq]
    have := length_teamFilter (personal.map GitHubIssue.id) team
    simp only [List.length_append]
    omega
  · refine ⟨teamFilter (personal.map GitHubIssue.id) team, mergeReviews_eq _ _, ?_⟩
    intro pr hpr
    exact mem_teamFilter hpr
  · intro hnd
    rw [mergeReviews_eq, List.map_append, List.nodup_append]
    refine ⟨hnd, nodup_teamFilter _ _, ?_⟩
    intro x hx hx'
    rcases List.mem_map.mp hx' with ⟨q, hq, hid⟩
    exact (mem_teamFilter hq).2 (hid ▸ hx)

/-- C2, witness: the amended theorem applied to a one-element personal
list (no duplicate ids) and a team list overlapping it. -/
theorem c2_mergeReviews_witness :
    (mergeReviews [prAlpha] [prBeta, prAlpha]).length ≤ 3 ∧
    ((mergeReviews [prAlpha] [prBeta, prAlpha]).map GitHubIssue.id).Nodup :=
  ⟨(c2_mergeReviews [prAlpha] [prBeta, prAlpha]).1,
   (c2_mergeReviews [prAlpha] [prBeta, prAlpha]).2.2 (by decide)⟩

/-! ## Claim C3: appending notes -/

/-- Notes text currently stored under a key (empty when absent). -/
def storedNotes (issues : List (Str × TodoItem)) (key : Str) : Str :=
  match issues.lookup key with
  | some it => it.notes
  | none => []

/-- Status currently stored under a key (`backlog` when absent). -/
def storedStatusD (issues : List (Str × TodoItem)) (key : Str) : Status :=
  match issues.lookup key with
  | some it => it.status
  | none => Status.backlog

theorem updateLocal_note_spec (issues : List (Str × TodoItem)) (key n d t : Str) :
    ∃ item, (updateLocal issues key none (some n) d t none).lookup key = some item ∧
      item.notes = storedNotes issues key
        ++ (if (storedNotes issues key).length > 0 then str "\n\n" else [])
        ++ '[' :: d ++ ']' :: ' ' :: n ∧
      item.status = storedStatusD issues key ∧
      item.lastUpdated = t := by
  simp only [updateLocal]
  cases h : issues.lookup key with
  | none =>
    refine ⟨_, lookup_setKey_self _ _ _, ?_, ?_, rfl⟩ <;>
      simp [storedNotes, storedStatusD, h, str]
  | some it =>
    refine ⟨_, lookup_setKey_self _ _ _, ?_, ?_, rfl⟩ <;>
      simp [storedNotes, storedStatusD, h, str]

def noteItemA : TodoItem :=
  { status := Status.inProgress, notes := str "A", lastUpdated := str "t0",
    title := none, url := none }

/-- C3, counterexample: the claim says an existing annotation always has
`"\n\n[date] note"` appended; for an existing annotation with empty
notes (such as one created by a status-only update) the code appends
without the blank-line separator. -/
theorem c3_counterexample :
    (updateLocal
        [(str "acme/x#1",
          { status := Status.backlog, notes := [], lastUpdated := str "t0",
            title := none, url := none })]
        (str "acme/x#1") none (some (str "hello")) (str "2024-01-02") (str "now")
        none).lookup (str "acme/x#1")
      = some { status := Status.backlog, notes := str "[2024-01-02] hello",
               lastUpdated := str "now", title := none, url := none } ∧
    str "[2024-01-02] hello" ≠ ([] : Str) ++ str "\n\n[2024-01-02] hello" := by
  refine ⟨by decide, by decide⟩

/-- C3 (amended): when no annotation exists for the key, a note-only
update creates one with status `backlog` and notes `"[date] note"`; when
one exists, the new notes are the existing notes with `"\n\n[date] note"`
appended, the blank-line separator present exactly when the existing
notes are non-empty; existing notes are never replaced, truncated or
shrunk, and appending twice yields a string containing both note bodies
with both timestamps. -/
theorem c3_appendNote (issues : List (Str × TodoItem)) (key n1 n2 d1 d2 t1 t2 : Str) :
    (issues.lookup key = none →
      (updateLocal issues key none (some n1) d1 t1 none).lookup key
        = some { status := Status.backlog, notes := '[' :: d1 ++ ']' :: ' ' :: n1,
                 lastUpdated := t1, title := none, url := none }) ∧
    (∀ it, issues.lookup key = some it →
      ∃ item, (updateLocal issues key none (some n1) d1 t1 none).lookup key = some item ∧
        item.notes = it.notes
          ++ (if it.notes.length > 0 then str "\n\n" else [])
          ++ '[' :: d1 ++ ']' :: ' ' :: n1 ∧
        item.status = it.status ∧
        it.notes.length ≤ item.notes.length ∧
        ∃ rest, item.notes = it.notes ++ rest) ∧
    (∃ item,
      (updateLocal (updateLocal issues key none (some n1) d1 t1 none)
          key none (some n2) d2 t2 none).lookup key = some item ∧
      ∃ p q, item.notes
        = p ++ ('[' :: d1 ++ ']' :: ' ' :: n1) ++ q ++ ('[' :: d2 ++ ']' :: ' ' :: n2)) := by
  refine ⟨?_, ?_, ?_⟩
  · intro h
    simp only [updateLocal, h]
    have := lookup_setKey_self issues key
      { status := Status.backlog, notes := '[' :: d1 ++ ']' :: ' ' :: n1,
        lastUpdated := t1, title := none, url := none }
    simpa [str] using this
  · intro it h
    obtain ⟨item, hl, hn, hs, ht⟩ := updateLocal_note_spec issues key n1 d1 t1
    have hsn : storedNotes issues key = it.notes := by simp [storedNotes, h]
    have hss : storedStatusD issues key = it.status := by simp [storedStatusD, h]
    refine ⟨item, hl, by rw [hn, hsn], by rw [hs, hss], ?_, ?_⟩
    · rw [hn, hsn]
      simp only [List.length_append, List.length_cons]
      omega
    · refine ⟨(if it.notes.length > 0 then str "\n\n" else [])
        ++ '[' :: d1 ++ ']' :: ' ' :: n1, ?_⟩
      rw [hn, hsn]
      simp [List.append_assoc]
  · obtain ⟨item1, hl1, hn1, hs1, ht1⟩ := updateLocal_note_spec issues key n1 d1 t1
    obtain ⟨item2, hl2, hn2, hs2, ht2⟩ :=
      updateLocal_note_spec (updateLocal issues key none (some n1) d1 t1 none) key n2 d2 t2
    have hsn2 : storedNotes (updateLocal issues key none (some n1) d1 t1 none) key
        = item1.notes := by simp [storedNotes, hl1]
    refine ⟨item2, hl2,
      storedNotes issues key
        ++ (if (storedNotes issues key).length > 0 then str "\n\n" else []),
      str "\n\n", ?_⟩
    have hcond : (storedNotes issues key
        ++ (if (storedNotes issues key).length > 0 then str "\n\n" else [])
        ++ '[' :: d1 ++ ']' :: ' ' :: n1).length > 0 := by
      simp only [List.length_append, List.length_cons]
      omega
    rw [hn2, hsn2, hn1, if_pos hcond]
    simp [List.append_assoc]

/-- C3, witness: the amended theorem applied to a store holding the key
with non-empty notes `"A"`, then appending twice. -/
theorem c3_appendNote_witness :
    (∃ item,
      (updateLocal [(str "k#1", noteItemA)] (str "k#1")
          none (some (str "second")) (str "2024-02-02") (str "t1") none).lookup (str "k#1")
        = some item ∧
      item.notes = noteItemA.notes
        ++ (if noteItemA.notes.length > 0 then str "\n\n" else [])
        ++ '[' :: str "2024-02-02" ++ ']' :: ' ' :: str "second" ∧
      item.status = noteItemA.status ∧
      noteItemA.notes.length ≤ item.notes.length ∧
      ∃ rest, item.notes = noteItemA.notes ++ rest) ∧
    (∃ item,
      (updateLocal (updateLocal [(str "k#1", noteItemA)] (str "k#1")
            none (some (str "second")) (str "2024-02-02") (str "t1") none)
          (str "k#1") none (some (str "third")) (str "2024-03-03") (str "t2")
          none).lookup (str "k#1") = some item ∧
      ∃ p q, item.notes
        = p ++ ('[' :: str "2024-02-02" ++ ']' :: ' ' :: str "second")
          ++ q ++ ('[' :: str "2024-03-03" ++ ']' :: ' ' :: str "third")) :=
  ⟨(c3_appendNote [(str "k#1", noteItemA)] (str "k#1") (str "second") (str "third")
      (str "2024-02-02") (str "2024-03-03") (str "t1") (str "t2")).2.1 noteItemA rfl,
   (c3_appendNote [(str "k#1", noteItemA)] (str "k#1") (str "second") (str "third")
      (str "2024-02-02") (str "2024-03-03") (str "t1") (str "t2")).2.2⟩

/-! ## Claims C4 and C5: ordering and idempotence of the prioritizer -/

theorem prRank_eq_zero_iff (a : Notification) :
    prRank a = 0 ↔ a.subject.type = str "PullRequest" := by
  unfold prRank
  split <;> simp_all

/-- C4: in the prioritized output, every earlier item scores at least
every later one; on equal score a PullRequest-kind item never follows a
non-PullRequest item; and on equal score and equal kind the repository
full names appear in ascending lexical order. -/
theorem c4_tiebreak_ordering (w : List Str) (l : List Notification) :
    (prioritiseNotifications w l).Pairwise fun a b =>
      score w b ≤ score w a ∧
      (score w a = score w b →
        (b.subject.type = str "PullRequest" → a.subject.type = str "PullRequest") ∧
        ((a.subject.type = str "PullRequest" ↔ b.subject.type = str "PullRequest") →
          strCmp a.repository.full_name b.repository.full_name ≤ 0)) := by
  have hp := pairwise_jsSort (cmpNotif_neg w) (fun {a b c} => cmpNotif_le_trans w) l
  refine hp.imp ?_
  intro a b hab
  rw [cmpNotif_le_iff] at hab
  constructor
  · rcases hab with h | ⟨h, -⟩ <;> omega
  · intro heq
    rcases hab with h | ⟨-, h⟩
    · omega
    · constructor
      · intro hbPR
        have hrb : prRank b = 0 := (prRank_eq_zero_iff b).mpr hbPR
        rcases h with h | ⟨h, -⟩
        · omega
        · exact (prRank_eq_zero_iff a).mp (by omega)
      · intro hk
        have hr : prRank a = prRank b := by
          unfold prRank
          rcases hk with ⟨h1, h2⟩
          by_cases hb : b.subject.type = str "PullRequest"
          · rw [if_pos (h2 hb), if_pos hb]
          · rw [if_neg (fun ha => hb (h1 ha)), if_neg hb]
        rcases h with h | ⟨-, h⟩
        · omega
        · exact h

/-- C5: `prioritize` is idempotent — sorting an already prioritized list
returns it unchanged. -/
theorem c5_idempotent (w : List Str) (l : List Notification) :
    prioritiseNotifications w (prioritiseNotifications w l)
      = prioritiseNotifications w l := by
  unfold prioritiseNotifications
  exact jsSort_of_pairwise (cmpNotif_neg w)
    (pairwise_jsSort (cmpNotif_neg w) (fun {a b c} => cmpNotif_le_trans w) l)

/-! ## Claim C6: issue-key round trip and parse failure -/

/-- The spec's notion of a well-formed non-negative integer segment:
non-empty and consisting of decimal digits only.  Used to state the
counterexample against the claimed failure condition. -/
def isNonNegIntSegment (s : Str) : Bool :=
  !s.isEmpty && s.all Char.isDigit

/-- C6, counterexample: the claim says parsing fails whenever the number
segment is not a non-negative integer, but radix-less `parseInt` accepts
any string with a leading digit sequence — `a/b#12abc` parses to number
12, `a/b#-5` parses to a negative number, and `a/b#0x10` parses to 16
through the hexadecimal prefix. -/
theorem c6_counterexample :
    parseUpdateKey (str "a/b#12abc") = some (str "a/b", (12 : Int)) ∧
    isNonNegIntSegment (str "12abc") = false ∧
    parseUpdateKey (str "a/b#-5") = some (str "a/b", (-5 : Int)) ∧
    isNonNegIntSegment (str "-5") = false ∧
    parseUpdateKey (str "a/b#0x10") = some (str "a/b", (16 : Int)) ∧
    isNonNegIntSegment (str "0x10") = false := by
  refine ⟨by decide, by decide, by decide, by decide, by decide, by decide⟩

/-- C6 (amended): formatting `owner/repo#number` and parsing it back
recovers the original triple whenever the owner and repository names
contain neither `#` nor `/` and are non-empty; the update operation
rejects a key as malformed exactly when `#` is absent or the number
segment, after optional whitespace, an optional sign and an optional
`0x`/`0X` radix prefix, does not begin with a digit of the selected
radix; in particular a hex-prefixed segment `0x10` parses (to 16) and a
bare `0x` is rejected. -/
theorem c6_issueKey_roundtrip (owner repo : Str) (n : Nat)
    (h1 : '#' ∉ owner) (h2 : '#' ∉ repo) (h3 : '/' ∉ owner) (h4 : '/' ∉ repo)
    (h5 : owner ≠ []) (h6 : repo ≠ []) :
    parseTriple ((owner ++ '/' :: repo) ++ '#' :: natToChars n)
      = some (owner, repo, (n : Int)) ∧
    (∀ key : Str, parseUpdateKey key = none ↔
      '#' ∉ key ∨
        headIsRadixDigit
          (stripHex
            (stripSign (((splitOnChar '#' key).getD 1 []).dropWhile jsWhitespace)))
          = false) ∧
    parseUpdateKey (str "a/b#0x10") = some (str "a/b", (16 : Int)) ∧
    parseUpdateKey (str "a/b#0x") = none :=
  ⟨parseTriple_roundtrip owner repo n h1 h2 h3 h4 h5 h6, parseUpdateKey_eq_none_iff,
   by decide, by decide⟩

/-- C6, witness: the amended theorem at `acme`, `widgets`, `42`, plus
the failure characterization evaluated at the separator-free key
`acmewidgets` and the concrete hexadecimal scenarios. -/
theorem c6_issueKey_roundtrip_witness :
    parseTriple ((str "acme" ++ '/' :: str "widgets") ++ '#' :: natToChars 42)
      = some (str "acme", str "widgets", (42 : Int)) ∧
    (parseUpdateKey (str "acmewidgets") = none ↔
      '#' ∉ str "acmewidgets" ∨
        headIsRadixDigit
          (stripHex
            (stripSign
              (((splitOnChar '#' (str "acmewidgets")).getD 1 []).dropWhile jsWhitespace)))
          = false) ∧
    parseUpdateKey (str "a/b#0x10") = some (str "a/b", (16 : Int)) ∧
    parseUpdateKey (str "a/b#0x") = none :=
  ⟨(c6_issueKey_roundtrip (str "acme") (str "widgets") 42 (by decide) (by decide)
      (by decide) (by decide) (by decide) (by decide)).1,
   (c6_issueKey_roundtrip (str "acme") (str "widgets") 42 (by decide) (by decide)
      (by decide) (by decide) (by decide) (by decide)).2.1 (str "acmewidgets"),
   (c6_issueKey_roundtrip (str "acme") (str "widgets") 42 (by decide) (by decide)
      (by decide) (by decide) (by decide) (by decide)).2.2.1,
   (c6_issueKey_roundtrip (str "acme") (str "widgets") 42 (by decide) (by decide)
      (by decide) (by decide) (by decide) (by decide)).2.2.2⟩

/-! ## Claim C7: loading persisted state never fails -/

/-- C7: for every persisted-file state — absent, unreadable or corrupt
content, a record lacking `issues`, or a record with unknown extra
top-level fields — the load returns a storage with a defined `issues`
mapping, empty when no valid data exists; and a record holding an empty
`issues` object plus an unknown extra top-level field loads unchanged and
reports zero stored annotations. -/
theorem c7_load_total (file : Option Json) :
    (∃ j, issuesOf (loadTodoData file) = some j) ∧
    issuesOf (loadTodoData none) = some (Json.obj []) ∧
    issuesOf (loadTodoData (some (Json.num 42))) = some (Json.obj []) ∧
    issuesOf (loadTodoData (some (Json.obj [(str "other", Json.num 1)])))
      = some (Json.obj []) ∧
    loadTodoData (some (Json.obj [(str "issues", Json.obj []), (str "version", Json.num 2)]))
      = Json.obj [(str "issues", Json.obj []), (str "version", Json.num 2)] ∧
    storedCount
      (loadTodoData
        (some (Json.obj [(str "issues", Json.obj []), (str "version", Json.num 2)]))) = 0 := by
  refine ⟨?_, rfl, rfl, rfl, rfl, rfl⟩
  cases file with
  | none => exact ⟨Json.obj [], rfl⟩
  | some j =>
    cases j with
    | null => exact ⟨Json.obj [], rfl⟩
    | bool b => exact ⟨Json.obj [], rfl⟩
    | num n => exact ⟨Json.obj [], rfl⟩
    | jstr s => exact ⟨Json.obj [], rfl⟩
    | arr xs => exact ⟨Json.obj [], rfl⟩
    | obj fields =>
      simp only [loadTodoData]
      by_cases ht : truthy (fields.lookup (str "issues")) = true
      · rw [if_pos ht]
        cases hl : fields.lookup (str "issues") with
        | none => rw [hl] at ht; exact absurd ht (by decide)
        | some v => exact ⟨v, by simp [issuesOf, hl]⟩
      · rw [if_neg ht]
        exact ⟨Json.obj [], by simp [issuesOf, lookup_setJsonField_self]⟩

/-! ## Claim C8: remote failure does not block the local update -/

/-- C8: for an update carrying a status, the resulting local storage is
the same whether the remote label write succeeded or failed, the two
outcomes are reported independently, and the local annotation is indeed
persisted under the key with the requested status. -/
theorem c8_remote_failure_local_update (issues : List (Str × TodoItem)) (key : Str)
    (s : Status) (note : Option Str) (today now : Str) (fetched : Option (Str × Str)) :
    (runUpdateCommand false fetched issues key (some s) note today now).issues
      = (runUpdateCommand true fetched issues key (some s) note today now).issues ∧
    (runUpdateCommand false fetched issues key (some s) note today now).remoteReported
      = some false ∧
    (runUpdateCommand true fetched issues key (some s) note today now).remoteReported
      = some true ∧
    ∃ item,
      ((runUpdateCommand false fetched issues key (some s) note today now).issues).lookup key
        = some item ∧ item.status = s := by
  refine ⟨rfl, rfl, rfl, ?_⟩
  simp only [runUpdateCommand, updateLocal]
  rcases note with _ | n <;> rcases fetched with _ | ⟨t, u⟩ <;>
    exact ⟨_, lookup_setKey_self _ _ _, rfl⟩

/-! ## Claim C9: the todo-mode display merge -/

/-- C9: every key present in storage but absent from the remote assigned
view is surfaced as a manually tracked entry, carrying only its cached
data, in the group of its stored status; and the grouped output lists
its status groups in the fixed order in-progress, blocked, review,
backlog. -/
theorem c9_manual_entries_surface (todoView : List GitHubIssue)
    (issues : List (Str × TodoItem)) (key : Str) (data : TodoItem)
    (hmem : (key, data) ∈ issues)
    (habs : key ∉ todoView.map getIssueKey) :
    (∃ entries, (data.status, entries) ∈ mergeForDisplay todoView issues ∧
      DisplayEntry.manual key data ∈ entries) ∧
    List.Sublist ((mergeForDisplay todoView issues).map Prod.fst)
      [Status.inProgress, Status.blocked, Status.review, Status.backlog] := by
  constructor
  · refine ⟨displayGroup todoView issues data.status, ?_, ?_⟩
    · have hentry : DisplayEntry.manual key data ∈ displayGroup todoView issues data.status := by
        unfold displayGroup
        refine List.mem_append_right _ ?_
        refine List.mem_map.mpr ⟨(key, data), ?_, rfl⟩
        refine List.mem_filter.mpr ⟨hmem, ?_⟩
        simp [habs]
      have hne : ¬ (displayGroup todoView issues data.status).isEmpty = true := by
        intro he
        rw [List.isEmpty_iff] at he
        rw [he] at hentry
        exact absurd hentry (List.not_mem_nil _)
      unfold mergeForDisplay
      cases hds : data.status <;>
        rw [hds] at hne <;>
        · refine List.mem_filter.mpr ⟨by simp, ?_⟩
          simpa using hne
    · unfold displayGroup
      refine List.mem_append_right _ ?_
      refine List.mem_map.mpr ⟨(key, data), ?_, rfl⟩
      refine List.mem_filter.mpr ⟨hmem, ?_⟩
      simp [habs]
  · unfold mergeForDisplay
    exact List.Sublist.map Prod.fst (List.filter_sublist _)

def manualOnlyStore : List (Str × TodoItem) :=
  [(str "k#1", noteItemA)]

/-- C9, witness: a storage entry under key `k#1` with status in-progress
and an empty remote assigned view. -/
theorem c9_manual_entries_surface_witness :
    (∃ entries,
      (noteItemA.status, entries) ∈ mergeForDisplay [] manualOnlyStore ∧
      DisplayEntry.manual (str "k#1") noteItemA ∈ entries) ∧
    List.Sublist ((mergeForDisplay [] manualOnlyStore).map Prod.fst)
      [Status.inProgress, Status.blocked, Status.review, Status.backlog] :=
  c9_manual_entries_surface [] manualOnlyStore (str "k#1") noteItemA
    (by decide) (by decide)

/-! ## Claim C10: the notification item cap -/

/-- C10: for every configured count `n`, the desktop-notification list
is the to-review items filling at most `ceil(n / 2)` slots, followed by
assigned items and then reviewed items filling only remaining slots, and
its total length never exceeds `n`. -/
theorem c10_notification_cap (n : Nat) (toReview todo reviewed : List GitHubIssue) :
    (notificationItems n toReview todo reviewed).length ≤ n ∧
    ∃ a b, notificationItems n toReview todo reviewed
      = toReview.take ((n + 1) / 2) ++ todo.take a ++ reviewed.take b := by
  constructor
  · simp only [notificationItems, List.nil_append]
    split_ifs <;> simp_all [List.length_append, List.length_take] <;> omega
  · simp only [notificationItems, List.nil_append]
    by_cases h1 : (toReview.take ((n + 1) / 2)).length < n
    · rw [if_pos h1]
      by_cases h2 : (toReview.take ((n + 1) / 2)
          ++ todo.take (n - (toReview.take ((n + 1) / 2)).length)).length < n
      · rw [if_pos h2]
        exact ⟨n - (toReview.take ((n + 1) / 2)).length,
          n - (toReview.take ((n + 1) / 2)
            ++ todo.take (n - (toReview.take ((n + 1) / 2)).length)).length, rfl⟩
      · rw [if_neg h2]
        exact ⟨n - (toReview.take ((n + 1) / 2)).length, 0, by simp⟩
    · rw [if_neg h1, if_neg h1]
      exact ⟨0, 0, by simp⟩

end Poke
